import Mathlib

/-!
Shallow embedding of the rules-resolution core of the `forceteki` card game
engine, covering the cost-adjustment arithmetic (`Player.js`), the
`GameSystem` / `CardTargetSystem` protocol, and the `AbilityResolver` state
machine (`AbilityResolver.js`), together with theorems settling the frozen
claims about them.
-/

namespace Forceteki

/-! ## Enums from `Constants` -/

/-- Card types from `Constants.CardType`. -/
inductive CardType where
  | base
  | event
  | leader
  | nonLeaderUnit
  | upgrade
  | tokenUnit
  | tokenUpgrade
  | leaderUnit
deriving DecidableEq, Repr

/-- Wildcard card types from `Constants.WildcardCardType`. -/
inductive WildcardCardType where
  | any
  | unit
  | token
deriving DecidableEq, Repr

/-- The TS union `CardTypeFilter = CardType | WildcardCardType`. -/
inductive CardTypeFilter where
  | ofCardType (t : CardType)
  | ofWildcard (w : WildcardCardType)
deriving DecidableEq, Repr

/-- Locations from `Constants.Location` (the subset the verified core touches). -/
inductive Location where
  | groundArena
  | spaceArena
  | base
  | deck
  | discard
  | hand
  | resource
  | removedFromGame
  | outsideTheGame
deriving DecidableEq, Repr

/-- Wildcard locations from `Constants.WildcardLocation`. -/
inductive WildcardLocation where
  | any
  | anyArena
  | anyAttackable
deriving DecidableEq, Repr

/-- The TS union `LocationFilter = Location | WildcardLocation`. -/
inductive LocationFilter where
  | ofLocation (l : Location)
  | ofWildcard (w : WildcardLocation)
deriving DecidableEq, Repr

/-- Resolution stages from `Constants.Stage`. -/
inductive Stage where
  | preTarget
  | cost
  | target
  | effectTmp
deriving DecidableEq, Repr

/-- Play types from `Constants.PlayType`. -/
inductive PlayType where
  | playFromHand
  | smuggle
deriving DecidableEq, Repr

/-- Aspects from `Constants.Aspect`. -/
inductive Aspect where
  | villainy
  | heroism
  | aggression
  | command
  | cunning
  | vigilance
deriving DecidableEq, Repr

/-! ## `utils/EnumHelpers` (from the source file holding `cardTypeMatches` etc.) -/

namespace EnumHelpers

/-- `EnumHelpers.isArena`: a location filter denotes an arena. -/
def isArena : LocationFilter → Bool
  | .ofLocation .groundArena => true
  | .ofLocation .spaceArena => true
  | .ofWildcard .anyArena => true
  | _ => false

/-- `EnumHelpers.isAttackableLocation`. -/
def isAttackableLocation : LocationFilter → Bool
  | .ofLocation .groundArena => true
  | .ofLocation .spaceArena => true
  | .ofWildcard .anyArena => true
  | .ofLocation .base => true
  | _ => false

/-- `EnumHelpers.isUnit` (takes a `CardTypeFilter` in the source). -/
def isUnit : CardTypeFilter → Bool
  | .ofWildcard .unit => true
  | .ofCardType .nonLeaderUnit => true
  | .ofCardType .leaderUnit => true
  | .ofCardType .tokenUnit => true
  | _ => false

/-- `EnumHelpers.isToken` (takes a `CardTypeFilter` in the source). -/
def isToken : CardTypeFilter → Bool
  | .ofWildcard .token => true
  | .ofCardType .tokenUpgrade => true
  | .ofCardType .tokenUnit => true
  | _ => false

/-- `EnumHelpers.cardLocationMatches`: the card location matches one of the
allowed location filters (the source wraps a non-array filter into a
singleton list; we take the list directly). -/
def cardLocationMatches (cardLocation : Location) (locationFilter : List LocationFilter) : Bool :=
  locationFilter.any fun allowedLocation =>
    match allowedLocation with
    | .ofWildcard .any => true
    | .ofWildcard .anyArena => isArena (.ofLocation cardLocation)
    | .ofWildcard .anyAttackable => isAttackableLocation (.ofLocation cardLocation)
    | f => decide (LocationFilter.ofLocation cardLocation = f)

/-- `EnumHelpers.cardTypeMatches`: the card type matches one of the allowed
card-type filters. -/
def cardTypeMatches (cardType : CardType) (cardTypeFilter : List CardTypeFilter) : Bool :=
  cardTypeFilter.any fun allowedCardType =>
    match allowedCardType with
    | .ofWildcard .any => true
    | .ofWildcard .unit => isUnit (.ofCardType cardType)
    | .ofWildcard .token => isToken (.ofCardType cardType)
    | f => decide (CardTypeFilter.ofCardType cardType = f)

end EnumHelpers

/-! ## Cards and game state

Cards are identified by numeric ids; the mutable per-card data (type,
location, attached upgrades, restriction effects, ...) lives in a
`CardState`, and a `GameState` maps each card id to its current
`CardState`.  Closures in the source that read card fields at call time
become Lean functions taking the `GameState` at which they are evaluated. -/

/-- An `UnlessActionCost` ongoing-effect value carried by a card, as consumed
by `CardTargetSystem.generateEventsForAllTargets`: the name of the action it
taxes and the verdict of `cost.hasLegalTarget(context)` for the cost system it
carries (the cost system itself is external card content, so we record only
the legality verdict the engine branches on). -/
structure UnlessCostProp where
  actionName : String
  costHasLegalTarget : Bool
deriving DecidableEq, Repr

/-- The mutable state of one card. `restrictions` models
`card.hasRestriction(name, context)` (modelled from the spec: the restriction
engine is not under `src/`; the spec only requires knowing whether the target
"carries a restriction effect naming this system"). `upgrades` holds the ids
of attached upgrade cards; `parentCardId` is the attach target of an upgrade.
`unlessActionCosts` models `card.getEffectValues(EffectName.UnlessActionCost)`. -/
structure CardState where
  type : CardType
  location : Location
  cost : Int
  restrictions : List String
  upgrades : List Nat
  parentCardId : Option Nat
  unlessActionCosts : List UnlessCostProp

/-- The game state at one instant: the state of every card, keyed by id. -/
def GameState := Nat → CardState

/-! ## Cost adjustment (`Player.getAdjustedCost` and friends) -/

/-- Modelled from the spec: the `CostAdjuster` class (`core/cost/CostAdjuster`)
is not under `src/`. Per the spec a cost adjuster is
"{source, applicability predicate, signed amount, floor, use-count/expiry}";
`canAdjust` is the applicability predicate with the argument list used at the
call sites in `Player.js`, `getAmount` the signed amount (a function of the
card, as at the call sites), and `costFloor` the floor. -/
structure CostAdjuster where
  canAdjust : PlayType → Nat → Option Nat → Bool → Option Aspect → Bool
  getAmount : Nat → Int
  costFloor : Int

/-- The slice of `Player` read by the cost-adjustment and leaves-play code:
the registered cost adjusters, the aspects granted by leader and base
(`Player.getAspects`), and the player's additional piles (read by
`isLegalLocationForCardType`). -/
structure Player where
  costAdjusters : List CostAdjuster
  leaderAspects : List Aspect
  baseAspects : List Aspect
  additionalPiles : List Location

/-- `Player.getAspects`: leader aspects concatenated with base aspects. -/
def Player.getAspects (p : Player) : List Aspect :=
  p.leaderAspects ++ p.baseAspects

/-- The loop body of `Player.getPenaltyAspects`: walk the cost aspects,
removing the first matching player aspect when one exists and otherwise
recording a penalty aspect (`indexOf` / `splice` in the source is removal of
the first occurrence, i.e. `List.erase`). -/
def penaltyAspectsLoop : List Aspect → List Aspect → List Aspect
  | _, [] => []
  | playerAspects, aspect :: rest =>
    if aspect ∈ playerAspects then
      penaltyAspectsLoop (playerAspects.erase aspect) rest
    else
      aspect :: penaltyAspectsLoop playerAspects rest

/-- `Player.getPenaltyAspects`: the cost aspects not covered by the player's
leader/base aspects (with multiplicity); `none` cost aspects give `[]`. -/
def Player.getPenaltyAspects (p : Player) (costAspects : Option (List Aspect)) : List Aspect :=
  match costAspects with
  | none => []
  | some aspects => penaltyAspectsLoop p.getAspects aspects

/-- `Math.max(...list)` over a possibly empty list: JS returns `-Infinity`
when the list is empty, which we represent as `none`. -/
def jsMathMax : List Int → Option Int
  | [] => none
  | x :: xs =>
    match jsMathMax xs with
    | none => some x
    | some m => some (max x m)

/-- The `matchingAdjusters` filter at the top of
`Player.runAdjustersForCostType`. -/
def matchingAdjusters (costAdjusters : List CostAdjuster) (playingType : PlayType)
    (card : Nat) (target : Option Nat) (ignoreType : Bool) (penaltyAspect : Option Aspect) :
    List CostAdjuster :=
  costAdjusters.filter fun adjuster =>
    adjuster.canAdjust playingType card target ignoreType penaltyAspect

/-- The `costIncreases` reduction of `Player.runAdjustersForCostType`:
adjusters with negative `getAmount` contribute `-amount` (an increase). -/
def costIncreases (matching : List CostAdjuster) (card : Nat) : Int :=
  ((matching.filter fun a => a.getAmount card < 0).foldl
    (fun cost adjuster => cost - adjuster.getAmount card) 0)

/-- The `costDecreases` reduction of `Player.runAdjustersForCostType`:
adjusters with positive `getAmount` contribute `amount` (a decrease). -/
def costDecreases (matching : List CostAdjuster) (card : Nat) : Int :=
  ((matching.filter fun a => a.getAmount card > 0).foldl
    (fun cost adjuster => cost + adjuster.getAmount card) 0)

/-- `Player.runAdjustersForCostType`: sum the increases onto the base cost,
subtract the decreases, then clamp at
`Math.min(baseCost, Math.max(...floors))`.  With no matching adjusters
`Math.max()` is `-Infinity`, so the clamp is a no-op (the `none` branch). -/
def Player.runAdjustersForCostType (p : Player) (playingType : PlayType) (baseCost : Int)
    (card : Nat) (target : Option Nat) (ignoreType : Bool)
    (penaltyAspect : Option Aspect) : Int :=
  let matching := matchingAdjusters p.costAdjusters playingType card target ignoreType penaltyAspect
  let increased := baseCost + costIncreases matching card
  let reducedCost := increased - costDecreases matching card
  match jsMathMax (matching.map (·.costFloor)) with
  | none => reducedCost
  | some floorsMax => max reducedCost (min increased floorsMax)

/-- `Player.getAdjustedCost`: run the adjuster pass once per penalty aspect
(base cost 2 each) and once for the card's printed cost plus the aggregated
aspect penalties. -/
def Player.getAdjustedCost (p : Player) (playingType : PlayType) (card : Nat) (cardCost : Int)
    (target : Option Nat) (ignoreType : Bool) (aspects : Option (List Aspect)) : Int :=
  let penaltyAspects := p.getPenaltyAspects aspects
  let aspectPenaltiesTotal := penaltyAspects.foldl
    (fun total aspect =>
      total + p.runAdjustersForCostType playingType 2 card target ignoreType (some aspect)) 0
  let penalizedCost := cardCost + aspectPenaltiesTotal
  p.runAdjustersForCostType playingType penalizedCost card target ignoreType none

/-- A call to `Player.getAdjustedCost` viewed as a state transformer on the
player: the method body only reads `this` (`this.costAdjusters`,
`this.getPenaltyAspects`, `this.runAdjustersForCostType`), never assigns, so
the call returns the computed cost together with the unchanged player state.
Consuming adjuster uses happens only in the separate `markUsedAdjusters`. -/
def Player.getAdjustedCostCall (p : Player) (playingType : PlayType) (card : Nat)
    (cardCost : Int) (target : Option Nat) (ignoreType : Bool)
    (aspects : Option (List Aspect)) : Int × Player :=
  (p.getAdjustedCost playingType card cardCost target ignoreType aspects, p)

/-! ## Ability contexts and game events -/

/-- The slice of `AbilityContext` read by the `GameSystem` protocol: the
resolution stage, the chain of systems already resolving (identities of
`GameSystem` objects, for the `includes(this)` check), and the source card. -/
structure AbilityContext where
  stage : Stage
  gameActionsResolutionChain : List Nat
  source : Nat

/-- A game event (`GameEvent.js` is not under `src/`; the fields are the ones
the code under `src/` reads and writes: name, `card` and `context` set by
`addPropertiesToEvent`, the `condition` predicate, the `cancelled` flag, the
ordering key, and the contingent-event marker).  The source's `condition` is
a zero-argument closure re-reading mutable game state when invoked; here that
closure is a function of the `GameState` at which it is evaluated.
`card`/`context`/`destination` are unset (`Option.none`) until a system
writes them. -/
structure GameEvent where
  name : String
  card : Option Nat
  context : Option AbilityContext
  condition : GameState → Bool
  cancelled : Bool
  order : Int
  isContingent : Bool
  destination : Option Location

/-- `GameEvent.cancel()` (modelled from the spec: `GameEvent.js` is not under
`src/`; per the spec a cancelled event's handler never runs and the event is
discarded, so cancelling is recorded in the `cancelled` flag). -/
def GameEvent.cancel (e : GameEvent) : GameEvent :=
  { e with cancelled := true }

/-! ## The `GameSystem` / `CardTargetSystem` protocol -/

/-- One source of property values for `generatePropertiesFromContext`
(`this.properties ?? this.propertyFactory(context)`, `additionalProperties`):
each field is present (`some`) or absent.  A raw `target` entry can be null
in JS (`filter(Boolean)` removes it), hence `Option Nat` entries. -/
structure PropertyOverrides where
  target : Option (List (Option Nat)) := none
  cannotBeCancelled : Option Bool := none
  optional : Option Bool := none
  destination : Option Location := none

/-- The duck-typed "properties or property factory" constructor argument of
`GameSystem`, made explicit as a two-variant sum. -/
inductive PropertySpec where
  | static (properties : PropertyOverrides)
  | factory (f : AbilityContext → PropertyOverrides)

/-- The property object returned by
`GameSystem.generatePropertiesFromContext` after merging and target
normalization. -/
structure GameSystemProperties where
  target : List Nat
  cannotBeCancelled : Bool
  optional : Bool
  destination : Option Location

/-- A `GameSystem` (specialized to card targets, i.e. the
`CardTargetSystem` branch of the hierarchy, which is the one the claims
concern): identity (`id`, for reference-equality checks), `name`,
`eventName`, the constructor's properties-or-factory argument, the
`getDefaultTargets` slot (overridable via `setDefaultTargetFn`; defaults to
`[context.source]` for card-target systems), and the declared
`targetTypeFilter`. -/
structure GameSystem where
  id : Nat
  name : String
  eventName : String
  props : PropertySpec
  getDefaultTargets : AbilityContext → List Nat
  targetTypeFilter : List CardTypeFilter

/-- Merge of one property field per `Object.assign` priority in
`generatePropertiesFromContext`: the system's own properties override
`additionalProperties`, which override the defaults. -/
def mergeProp {α : Type} (own additional : Option α) (dflt : α) : α :=
  match own with
  | some v => v
  | none =>
    match additional with
    | some v => v
    | none => dflt

/-- `GameSystem.generatePropertiesFromContext`: assemble the property object
from (in decreasing priority) `this.properties ?? this.propertyFactory(context)`,
`additionalProperties`, `this.defaultProperties`
(`cannotBeCancelled: false, optional: false`), and a default target of
`this.getDefaultTargets(context)`; then wrap the target into an array and
drop null entries (`filter(Boolean)`). -/
def generatePropertiesFromContext (sys : GameSystem) (context : AbilityContext)
    (additionalProperties : PropertyOverrides) : GameSystemProperties :=
  let own := match sys.props with
    | .static p => p
    | .factory f => f context
  let rawTarget := mergeProp own.target additionalProperties.target
    ((sys.getDefaultTargets context).map some)
  { target := rawTarget.filterMap id
    cannotBeCancelled := mergeProp own.cannotBeCancelled additionalProperties.cannotBeCancelled false
    optional := mergeProp own.optional additionalProperties.optional false
    destination := mergeProp (own.destination.map some) (additionalProperties.destination.map some) none }

/-- `CardTargetSystem.isTargetTypeValid`: the target is a card (all targets in
this embedding are card ids) whose runtime type matches the declared
`targetTypeFilter`. -/
def isTargetTypeValid (sys : GameSystem) (st : GameState) (target : Nat) : Bool :=
  EnumHelpers.cardTypeMatches (st target).type sys.targetTypeFilter

/-- `card.hasRestriction(name, context)` (modelled from the spec: the
restriction engine is not under `src/`; the spec requires only whether the
target "carries a restriction effect naming this system"). -/
def hasRestriction (cs : CardState) (name : String) (_context : AbilityContext) : Bool :=
  cs.restrictions.contains name

/-- `GameSystem.canAffect`: the target's runtime type passes the declared
type filter, the system is not already in the context's resolution chain,
and either resolution is mid-effect with a non-cancellable system or the
target carries no restriction naming this system. -/
def canAffect (sys : GameSystem) (st : GameState) (target : Nat) (context : AbilityContext)
    (additionalProperties : PropertyOverrides) : Bool :=
  let props := generatePropertiesFromContext sys context additionalProperties
  isTargetTypeValid sys st target &&
  !(context.gameActionsResolutionChain.contains sys.id) &&
  ((decide (context.stage = Stage.effectTmp) && props.cannotBeCancelled) ||
    !(hasRestriction (st target) sys.name context))

/-- `GameSystem.targets` (private): the resolved candidate target list. -/
def targets (sys : GameSystem) (context : AbilityContext)
    (additionalProperties : PropertyOverrides) : List Nat :=
  (generatePropertiesFromContext sys context additionalProperties).target

/-- `GameSystem.hasLegalTarget`: some resolved candidate satisfies
`canAffect` (the source's early-returning for-loop). -/
def hasLegalTarget (sys : GameSystem) (st : GameState) (context : AbilityContext)
    (additionalProperties : PropertyOverrides) : Bool :=
  (targets sys context additionalProperties).any fun candidateTarget =>
    canAffect sys st candidateTarget context additionalProperties

/-- `GameSystem.allTargetsLegal`: every resolved candidate satisfies
`canAffect` (the source's early-returning for-loop). -/
def allTargetsLegal (sys : GameSystem) (st : GameState) (context : AbilityContext)
    (additionalProperties : PropertyOverrides) : Bool :=
  (targets sys context additionalProperties).all fun candidateTarget =>
    canAffect sys st candidateTarget context additionalProperties

/-- `CardTargetSystem.checkEventCondition`:
`canAffect(event.card, event.context)`.  An event whose `card` or `context`
was never written cannot pass (`canAffect` on an undefined card fails the
`instanceof Card` type check in the source). -/
def checkEventCondition (sys : GameSystem) (st : GameState) (event : GameEvent)
    (additionalProperties : PropertyOverrides) : Bool :=
  match event.card, event.context with
  | some card, some context => canAffect sys st card context additionalProperties
  | _, _ => false

/-- `GameSystem.createEvent`: a blank unnamed event (`GameEvent.js` defaults
modelled from the spec: condition true, not cancelled, order 0). -/
def createEvent (_sys : GameSystem) (_target : Nat) (_context : AbilityContext)
    (_additionalProperties : PropertyOverrides) : GameEvent :=
  { name := "unnamed"
    card := none
    context := none
    condition := fun _ => true
    cancelled := false
    order := 0
    isContingent := false
    destination := none }

/-- `GameSystem.updateEvent` (with `addPropertiesToEvent` inlined: the base
class writes `event.context`, the card-target override also writes
`event.card`): set the event name, card and context, and install the
condition closure `() => this.checkEventCondition(event, additionalProperties)`,
which captures the updated event and re-reads game state when invoked. -/
def updateEvent (sys : GameSystem) (event : GameEvent) (target : Nat)
    (context : AbilityContext) (additionalProperties : PropertyOverrides) : GameEvent :=
  let updated := { event with
    name := sys.eventName
    context := some context
    card := some target }
  { updated with
    condition := fun st => checkEventCondition sys st updated additionalProperties }

/-- `GameSystem.generateEvent`: `createEvent` followed by `updateEvent`. -/
def generateEvent (sys : GameSystem) (target : Nat) (context : AbilityContext)
    (additionalProperties : PropertyOverrides) : GameEvent :=
  updateEvent sys (createEvent sys target context additionalProperties) target context
    additionalProperties

/-- `CardTargetSystem.addLeavesPlayPropertiesToEvent`: run `updateEvent`, set
the destination (defaulting to discard), and install the
`createContingentEvents` closure, which — at the `GameState` where it is
invoked — produces one defeat event per attached upgrade currently in an
arena, ordered at `event.order - 1`, with the defeat condition strengthened
by `upgrade.parentCard === event.card` and `isContingent` set.  The defeat
system (`context.game.actions.defeat()`) and the framework context are
external collaborators passed as parameters. -/
def addLeavesPlayPropertiesToEvent (sys defeatSystem : GameSystem)
    (frameworkContext : AbilityContext) (event : GameEvent) (card : Nat)
    (context : AbilityContext) (additionalProperties : PropertyOverrides) :
    GameEvent × (GameState → List GameEvent) :=
  let properties := generatePropertiesFromContext sys context additionalProperties
  let updated := updateEvent sys event card context additionalProperties
  let updated := { updated with
    destination := some (properties.destination.getD Location.discard) }
  (updated, fun st =>
    let upgrades := match updated.card with
      | some cid => (st cid).upgrades
      | none => []
    (upgrades.filter fun upgrade =>
      EnumHelpers.isArena (.ofLocation (st upgrade).location)).map fun upgrade =>
      let attachmentEvent := generateEvent defeatSystem upgrade frameworkContext {}
      let attachmentEvent := { attachmentEvent with order := updated.order - 1 }
      let previousCondition := attachmentEvent.condition
      { attachmentEvent with
        condition := fun st2 =>
          previousCondition st2 && decide ((st2 upgrade).parentCardId = updated.card)
        isContingent := true })

/-- `Player.isLegalLocationForCardType`: an additional pile is always legal;
otherwise look up the default legal locations for the card type and match.
`Helpers.defaultLegalLocationsForCardType` is not under `src/`, so the
lookup table is a parameter (a falsy table entry, the `none` case, fails the
`legalLocationsForType &&` guard). -/
def isLegalLocationForCardType
    (defaultLegalLocationsForCardType : CardType → Option (List LocationFilter))
    (p : Player) (cardType : CardType) (location : Location) : Bool :=
  if location ∈ p.additionalPiles then true
  else
    match defaultLegalLocationsForCardType cardType with
    | none => false
    | some legalLocationsForType =>
      EnumHelpers.cardLocationMatches location legalLocationsForType

/-- The observable outcome of `CardTargetSystem.leavesPlayEventHandler`: the
chat messages added and the destination passed to `moveCard`. -/
structure LeavesPlayOutcome where
  messages : List String
  moveCardDestination : Location
deriving DecidableEq, Repr

/-- `CardTargetSystem.leavesPlayEventHandler`, with `event.card`'s type and
`event.destination` passed as `cardType`/`destination`: when the owner's
`isLegalLocationForCardType` rejects the destination, add one chat message
and overwrite the destination with the deck before calling `moveCard`;
otherwise call `moveCard` with the destination unchanged. -/
def leavesPlayEventHandler
    (defaultLegalLocationsForCardType : CardType → Option (List LocationFilter))
    (owner : Player) (cardType : CardType) (destination : Location) : LeavesPlayOutcome :=
  if !(isLegalLocationForCardType defaultLegalLocationsForCardType owner cardType destination) then
    { messages := ["{0} is not a legal location for {1} and it is discarded"]
      moveCardDestination := Location.deck }
  else
    { messages := []
      moveCardDestination := destination }

/-! ## `CardTargetSystem.generateEventsForAllTargets`

The override iterates the resolved targets; a card with no matching
`UnlessActionCost` effects has its event pushed immediately, while a card
with such effects gets deferred work queued on the game pipeline: one step
per additional cost that resolves the cost (flipping that loop iteration's
local `allCostsPaid` to false when `cost.hasLegalTarget(context)` fails),
then one step pushing the card's event only if `allCostsPaid` survived.  We
embed the queued closures explicitly: each loop iteration's `allCostsPaid`
cell is keyed by the iteration index. -/

/-- The `additionalCosts` filter at the top of the loop body:
`card.getEffectValues(EffectName.UnlessActionCost)` filtered to this
system's action name. -/
def matchingAdditionalCosts (sys : GameSystem) (st : GameState) (card : Nat) :
    List UnlessCostProp :=
  (st card).unlessActionCosts.filter fun properties => properties.actionName == sys.name

/-- A deferred step queued by `generateEventsForAllTargets`: resolving one
additional cost for loop iteration `cardIdx` (recording the
`cost.hasLegalTarget(context)` verdict the step branches on), or pushing
iteration `cardIdx`'s event for `card` if its costs were all paid. -/
inductive CostQueueStep where
  | resolveCost (cardIdx : Nat) (costHasLegalTarget : Bool)
  | pushIfPaid (cardIdx : Nat) (card : Nat)

/-- The mutable state the queued closures share: one `allCostsPaid` cell per
loop iteration (all initially true) and the `events` array being built. -/
structure CostQueueState where
  allCostsPaid : Nat → Bool
  events : List GameEvent

/-- Semantics of one queued step. -/
def runCostQueueStep (sys : GameSystem) (context : AbilityContext)
    (additionalProperties : PropertyOverrides) (s : CostQueueState) :
    CostQueueStep → CostQueueState
  | .resolveCost cardIdx costHasLegalTarget =>
    if costHasLegalTarget then
      s
    else
      { s with allCostsPaid := fun j => if j = cardIdx then false else s.allCostsPaid j }
  | .pushIfPaid cardIdx card =>
    if s.allCostsPaid cardIdx then
      { s with events := s.events ++ [generateEvent sys card context additionalProperties] }
    else
      s

/-- The deferred steps queued by loop iteration `cardIdx` for `card`: none
when the card has no matching additional costs, otherwise one
`resolveCost` per cost followed by the conditional push. -/
def costSteps (sys : GameSystem) (st : GameState) (cardIdx : Nat) (card : Nat) :
    List CostQueueStep :=
  let additionalCosts := matchingAdditionalCosts sys st card
  if additionalCosts.isEmpty then []
  else
    (additionalCosts.map fun properties =>
      CostQueueStep.resolveCost cardIdx properties.costHasLegalTarget) ++
    [CostQueueStep.pushIfPaid cardIdx card]

/-- `CardTargetSystem.generateEventsForAllTargets`: the immediate pushes of
the for-loop, then the queued steps run in order (they execute after the
loop, appending into the same `events` array the method returned). -/
def generateEventsForAllTargets (sys : GameSystem) (st : GameState)
    (context : AbilityContext) (additionalProperties : PropertyOverrides) : List GameEvent :=
  let targetList := (generatePropertiesFromContext sys context additionalProperties).target
  let immediate := (targetList.filter fun card =>
    (matchingAdditionalCosts sys st card).isEmpty).map fun card =>
    generateEvent sys card context additionalProperties
  let queue := targetList.enum.flatMap fun pair => costSteps sys st pair.1 pair.2
  (queue.foldl (runCostQueueStep sys context additionalProperties)
    { allCostsPaid := fun _ => true, events := immediate }).events

/-! ## The `AbilityResolver` state machine (`AbilityResolver.js`)

The resolver's pipeline steps are embedded as functions on a state record.
Calls into external collaborators (`ability.executeHandler`,
`promptWithHandlerMenu`) are recorded in instrumentation fields
(`handlerExecuted`, `promptsShown`) so that "the handler is never invoked"
and "the prompt is shown at most once" are stateable. -/

/-- The slice of the ability definition the resolver branches on. -/
structure Ability where
  optional : Bool
  isActivatedAbility : Bool

/-- The resolver's state: the flags set in the constructor, the events list,
the `cancelled` bits of `targetResults`/`costResults` (both falsy at
construction: `targetResults = {}` and `getCostResults()` sets
`cancelled: false`), the pass-handler's `hasBeenShown` flag (`some b` iff
the ability is optional, i.e. `passAbilityHandler` is non-null), the current
stage, and the two instrumentation counters. -/
structure ResolverState where
  cancelled : Bool
  initiateAbility : Bool
  passPriority : Bool
  events : List GameEvent
  targetResultsCancelled : Bool
  costResultsCancelled : Bool
  passHasBeenShown : Option Bool
  stage : Stage
  promptsShown : Nat
  handlerExecuted : Bool

/-- The `AbilityResolver` constructor: `cancelled`/`initiateAbility`/
`passPriority` false, empty events, fresh target/cost results, and
`passAbilityHandler` created with `hasBeenShown: false` exactly when the
ability is optional. -/
def initialResolverState (ability : Ability) : ResolverState :=
  { cancelled := false
    initiateAbility := false
    passPriority := false
    events := []
    targetResultsCancelled := false
    costResultsCancelled := false
    passHasBeenShown := if ability.optional then some false else none
    stage := Stage.preTarget
    promptsShown := 0
    handlerExecuted := false }

/-- `AbilityResolver.checkForCancelOrPass`: return if already cancelled;
if a pass handler exists and has not been shown, queue `checkForPass`
(scheduling is represented by the step trace) and return; otherwise copy
`targetResults.cancelled` into `cancelled`. -/
def checkForCancelOrPass (s : ResolverState) : ResolverState :=
  if s.cancelled then s
  else
    match s.passHasBeenShown with
    | some false => s
    | _ => { s with cancelled := s.targetResultsCancelled }

/-- `AbilityResolver.checkForPass`: return if cancelled; cancel if the cost
results were cancelled; otherwise, if a pass handler exists and has not been
shown, set `hasBeenShown` **before** prompting and show the
Trigger-or-Pass prompt (counted in `promptsShown`). -/
def checkForPass (s : ResolverState) : ResolverState :=
  if s.cancelled then s
  else if s.costResultsCancelled then { s with cancelled := true }
  else
    match s.passHasBeenShown with
    | some false =>
      { s with passHasBeenShown := some true, promptsShown := s.promptsShown + 1 }
    | _ => s

/-- `AbilityResolver.initiateAbilityEffects`: when cancelled, call
`cancel()` on every event of the resolution and stop; otherwise (limit
increment and `displayMessage` have no footprint in this state slice) set
`initiateAbility` — immediately for non-activated abilities, and through the
resolution callback of the `openThenEventWindow` for activated abilities,
whose outcome is the `thenWindowResolved` parameter. -/
def initiateAbilityEffects (ability : Ability) (thenWindowResolved : Bool)
    (s : ResolverState) : ResolverState :=
  if s.cancelled then
    { s with events := s.events.map GameEvent.cancel }
  else if ability.isActivatedAbility then
    { s with initiateAbility := thenWindowResolved }
  else
    { s with initiateAbility := true }

/-- `AbilityResolver.executeHandler`: do nothing when cancelled or the
initiate flag was never set; otherwise move to stage `EffectTmp` and invoke
`ability.executeHandler` (recorded in `handlerExecuted`). -/
def executeHandler (s : ResolverState) : ResolverState :=
  if s.cancelled || !s.initiateAbility then s
  else { s with stage := Stage.effectTmp, handlerExecuted := true }

/-- One scheduled unit of resolver work, for reasoning about re-entries of
the pipeline: the two pass-related steps, or any other step of the
resolution (`resolveEarlyTargets`, `resolveCosts`, `payCosts`,
`checkCostsWerePaid`, `resolveTargets`, prompt handlers, ...), which may
set the `cancelled` flags but — as in the source — never touches
`passAbilityHandler.hasBeenShown` and never shows the Trigger-or-Pass
prompt. -/
inductive ResolverStep where
  | checkForCancelOrPass
  | checkForPass
  | external (setCancelled setTargetResultsCancelled setCostResultsCancelled : Option Bool)

/-- Semantics of one scheduled resolver step. -/
def runResolverStep (s : ResolverState) : ResolverStep → ResolverState
  | .checkForCancelOrPass => checkForCancelOrPass s
  | .checkForPass => checkForPass s
  | .external c t k =>
    { s with
      cancelled := c.getD s.cancelled
      targetResultsCancelled := t.getD s.targetResultsCancelled
      costResultsCancelled := k.getD s.costResultsCancelled }

/-- Run a schedule of resolver steps in order. -/
def runResolver (s : ResolverState) (trace : List ResolverStep) : ResolverState :=
  trace.foldl runResolverStep s

/-! ## Concrete fixtures used by the witness theorems -/

/-- A plain in-play unit card state. -/
def sampleCard : CardState :=
  { type := CardType.nonLeaderUnit
    location := Location.groundArena
    cost := 1
    restrictions := []
    upgrades := []
    parentCardId := none
    unlessActionCosts := [] }

/-- A sample card-target system. -/
def damageSystem : GameSystem :=
  { id := 1
    name := "damage"
    eventName := "onDamageDealt"
    props := PropertySpec.static {}
    getDefaultTargets := fun context => [context.source]
    targetTypeFilter := [CardTypeFilter.ofWildcard WildcardCardType.any] }

/-- A sample defeat system (for contingent upgrade-defeat events). -/
def defeatSystemFixture : GameSystem :=
  { id := 2
    name := "defeat"
    eventName := "onCardDefeated"
    props := PropertySpec.static {}
    getDefaultTargets := fun context => [context.source]
    targetTypeFilter := [CardTypeFilter.ofWildcard WildcardCardType.any] }

/-- A sample ability context at the pre-target stage. -/
def sampleContext : AbilityContext :=
  { stage := Stage.preTarget
    gameActionsResolutionChain := []
    source := 0 }

/-- A game state where every card is `sampleCard`. -/
def sampleState : GameState := fun _ => sampleCard

/-- A game state where every card carries a restriction against "damage". -/
def restrictedState : GameState := fun _ =>
  { sampleCard with restrictions := ["damage"] }

/-- A cost adjuster that always applies, reduces the cost by 3, and declares
a floor of 2. -/
def reduceByThreeFloorTwo : CostAdjuster :=
  { canAdjust := fun _ _ _ _ _ => true
    getAmount := fun _ => 3
    costFloor := 2 }

/-- A player holding just `reduceByThreeFloorTwo`. -/
def costPlayerFixture : Player :=
  { costAdjusters := [reduceByThreeFloorTwo]
    leaderAspects := []
    baseAspects := []
    additionalPiles := [] }

/-- A resolver state that was cancelled while holding one pending
(uncancelled) initiation event. -/
def cancelledResolverFixture : ResolverState :=
  { initialResolverState { optional := false, isActivatedAbility := false } with
    cancelled := true
    events := [createEvent damageSystem 0 sampleContext {}] }

/-- A game state where card 0 is a unit wearing the upgrade card 1, which is
in an arena. -/
def hostWithUpgradeState : GameState := fun n =>
  if n = 0 then { sampleCard with upgrades := [1] }
  else { sampleCard with type := CardType.upgrade, parentCardId := some 0 }

/-- A game state where card 1 carries an unpayable "unless" additional cost
for the "damage" action and the other cards carry none. -/
def threeTargetState : GameState := fun n =>
  if n = 1 then
    { sampleCard with unlessActionCosts := [{ actionName := "damage", costHasLegalTarget := false }] }
  else sampleCard

/-- The damage system aimed at the three targets 0, 1, 2. -/
def threeTargetSystem : GameSystem :=
  { damageSystem with props := PropertySpec.static { target := some [some 0, some 1, some 2] } }

/-- The invariant behind the at-most-one-pass-prompt property: the prompt
count never exceeds one, and it is still zero unless the pass handler's
`hasBeenShown` flag has been set. -/
def promptInv (s : ResolverState) : Prop :=
  s.promptsShown ≤ 1 ∧ (s.passHasBeenShown ≠ some true → s.promptsShown = 0)

/-! ## Helper lemmas -/

/-- `jsMathMax` returns `none` exactly on the empty list. -/
theorem jsMathMax_eq_none_iff (l : List Int) : jsMathMax l = none ↔ l = [] := by
  cases l with
  | nil => simp [jsMathMax]
  | cons x xs =>
    simp only [jsMathMax]
    cases jsMathMax xs <;> simp

/-- Every member of a list is bounded by its `jsMathMax`. -/
theorem le_jsMathMax {l : List Int} {x m : Int} (hx : x ∈ l) (hm : jsMathMax l = some m) :
    x ≤ m := by
  induction l generalizing m with
  | nil => cases hx
  | cons y ys ih =>
    simp only [jsMathMax] at hm
    cases hys : jsMathMax ys with
    | none =>
      rw [hys] at hm
      have : ys = [] := (jsMathMax_eq_none_iff ys).mp hys
      subst this
      simp at hx
      simp [hx, ← Option.some_inj.mp hm]
    | some m' =>
      rw [hys] at hm
      cases Option.some_inj.mp hm
      rcases List.mem_cons.mp hx with rfl | hmem
      · exact le_max_left _ _
      · exact le_trans (ih hmem hys) (le_max_right _ _)

/-! ## Theorems -/

/-- C4: `GameSystem.canAffect(target, context)` returns true iff the target's
runtime type passes the declared type filter (`isTargetTypeValid`), the
system is not already present in `context.gameActionsResolutionChain`, and
either the stage is `EffectTmp` with `cannotBeCancelled` true or the target
has no restriction effect naming this system. -/
theorem canAffect_iff (sys : GameSystem) (st : GameState) (target : Nat)
    (context : AbilityContext) (additionalProperties : PropertyOverrides) :
    canAffect sys st target context additionalProperties = true ↔
      (isTargetTypeValid sys st target = true ∧
        sys.id ∉ context.gameActionsResolutionChain ∧
        ((context.stage = Stage.effectTmp ∧
            (generatePropertiesFromContext sys context additionalProperties).cannotBeCancelled
              = true) ∨
          hasRestriction (st target) sys.name context = false)) := by
  simp [canAffect, Bool.and_eq_true, Bool.or_eq_true, Bool.not_eq_true',
    decide_eq_true_iff]
  tauto

/-- C8: `hasLegalTarget` is the existential and `allTargetsLegal` the
universal quantification of `canAffect` over the resolved candidate target
list; on an empty candidate list they return false and true respectively. -/
theorem hasLegalTarget_allTargetsLegal_spec (sys : GameSystem) (st : GameState)
    (context : AbilityContext) (additionalProperties : PropertyOverrides) :
    (hasLegalTarget sys st context additionalProperties = true ↔
      ∃ candidate ∈ targets sys context additionalProperties,
        canAffect sys st candidate context additionalProperties = true) ∧
    (allTargetsLegal sys st context additionalProperties = true ↔
      ∀ candidate ∈ targets sys context additionalProperties,
        canAffect sys st candidate context additionalProperties = true) ∧
    (targets sys context additionalProperties = [] →
      hasLegalTarget sys st context additionalProperties = false ∧
      allTargetsLegal sys st context additionalProperties = true) := by
  refine ⟨?_, ?_, ?_⟩
  · simp [hasLegalTarget, List.any_eq_true]
  · simp [allTargetsLegal, List.all_eq_true]
  · intro h
    simp [hasLegalTarget, allTargetsLegal, h]

/-- C8 witness: on a system whose resolved candidate list is empty,
`hasLegalTarget` is false and `allTargetsLegal` is true. -/
theorem hasLegalTarget_allTargetsLegal_spec_witness :
    hasLegalTarget
      { damageSystem with getDefaultTargets := fun _ => [] }
      sampleState sampleContext {} = false ∧
    allTargetsLegal
      { damageSystem with getDefaultTargets := fun _ => [] }
      sampleState sampleContext {} = true :=
  (hasLegalTarget_allTargetsLegal_spec
    { damageSystem with getDefaultTargets := fun _ => [] }
    sampleState sampleContext {}).2.2 rfl

/-- C2: the condition installed by `updateEvent`/`generateEvent` is the
closure `() => checkEventCondition(event)`, which for card-target systems
evaluates `canAffect(event.card, event.context)` against the game state at
the moment of application; so a target that was legal at creation but is
illegal at application evaluates the condition to false. -/
theorem event_condition_checked_at_apply_time (sys : GameSystem) (target : Nat)
    (context : AbilityContext) (additionalProperties : PropertyOverrides)
    (event : GameEvent) (stCreate stApply : GameState) :
    ((updateEvent sys event target context additionalProperties).condition stApply =
      canAffect sys stApply target context additionalProperties) ∧
    ((generateEvent sys target context additionalProperties).condition stApply =
      canAffect sys stApply target context additionalProperties) ∧
    (canAffect sys stCreate target context additionalProperties = true →
      canAffect sys stApply target context additionalProperties = false →
      (generateEvent sys target context additionalProperties).condition stApply = false) := by
  refine ⟨rfl, rfl, ?_⟩
  intro _ hApply
  exact hApply

/-- C2 witness: a damage event generated against a legal target whose card
gains a "damage" restriction before application has its condition evaluate
to false at apply time. -/
theorem event_condition_checked_at_apply_time_witness :
    (generateEvent damageSystem 0 sampleContext {}).condition restrictedState = false :=
  (event_condition_checked_at_apply_time damageSystem 0 sampleContext {}
    (createEvent damageSystem 0 sampleContext {}) sampleState restrictedState).2.2
    rfl rfl

/-- C9: `leavesPlayEventHandler` never fails: a destination the owner's
`isLegalLocationForCardType` rejects produces exactly one chat message and a
`moveCard` call redirected to the deck, while a legal destination produces
no message and a `moveCard` call with the destination unchanged. -/
theorem leavesPlayEventHandler_spec
    (defaultLegalLocationsForCardType : CardType → Option (List LocationFilter))
    (owner : Player) (cardType : CardType) (destination : Location) :
    (isLegalLocationForCardType defaultLegalLocationsForCardType owner cardType destination
        = false →
      (leavesPlayEventHandler defaultLegalLocationsForCardType owner cardType
          destination).messages.length = 1 ∧
      (leavesPlayEventHandler defaultLegalLocationsForCardType owner cardType
          destination).moveCardDestination = Location.deck) ∧
    (isLegalLocationForCardType defaultLegalLocationsForCardType owner cardType destination
        = true →
      (leavesPlayEventHandler defaultLegalLocationsForCardType owner cardType
          destination).messages = [] ∧
      (leavesPlayEventHandler defaultLegalLocationsForCardType owner cardType
          destination).moveCardDestination = destination) := by
  constructor
  · intro h
    simp [leavesPlayEventHandler, h]
  · intro h
    simp [leavesPlayEventHandler, h]

/-- C9 witness: with a table where a unit may only be in deck/discard/arena,
a leaves-play event whose recorded destination is the hand logs one message
and moves the card to the deck instead. -/
theorem leavesPlayEventHandler_spec_witness :
    (leavesPlayEventHandler
      (fun _ => some [LocationFilter.ofLocation Location.deck,
        LocationFilter.ofLocation Location.discard,
        LocationFilter.ofWildcard WildcardLocation.anyArena])
      { costAdjusters := [], leaderAspects := [], baseAspects := [], additionalPiles := [] }
      CardType.nonLeaderUnit Location.hand).messages.length = 1 ∧
    (leavesPlayEventHandler
      (fun _ => some [LocationFilter.ofLocation Location.deck,
        LocationFilter.ofLocation Location.discard,
        LocationFilter.ofWildcard WildcardLocation.anyArena])
      { costAdjusters := [], leaderAspects := [], baseAspects := [], additionalPiles := [] }
      CardType.nonLeaderUnit Location.hand).moveCardDestination = Location.deck :=
  (leavesPlayEventHandler_spec
    (fun _ => some [LocationFilter.ofLocation Location.deck,
      LocationFilter.ofLocation Location.discard,
      LocationFilter.ofWildcard WildcardLocation.anyArena])
    { costAdjusters := [], leaderAspects := [], baseAspects := [], additionalPiles := [] }
    CardType.nonLeaderUnit Location.hand).1 rfl

/-- C3: with `C` the pre-decrease cost (base plus summed increases) and `F`
the maximum floor among the matching adjusters, `runAdjustersForCostType`
returns `max (C - sum of decreases) (min C F)`; in particular the result is
never less than `min C F'` for any matching adjuster's floor `F'`. -/
theorem runAdjustersForCostType_floor_clamp
    (p : Player) (playingType : PlayType) (baseCost : Int) (card : Nat)
    (target : Option Nat) (ignoreType : Bool) (penaltyAspect : Option Aspect) (F : Int)
    (hF : jsMathMax ((matchingAdjusters p.costAdjusters playingType card target ignoreType
        penaltyAspect).map (fun a => a.costFloor)) = some F) :
    (p.runAdjustersForCostType playingType baseCost card target ignoreType penaltyAspect =
      max
        ((baseCost + costIncreases (matchingAdjusters p.costAdjusters playingType card target
            ignoreType penaltyAspect) card) -
          costDecreases (matchingAdjusters p.costAdjusters playingType card target ignoreType
            penaltyAspect) card)
        (min (baseCost + costIncreases (matchingAdjusters p.costAdjusters playingType card target
            ignoreType penaltyAspect) card) F)) ∧
    (∀ adjuster ∈ matchingAdjusters p.costAdjusters playingType card target ignoreType
        penaltyAspect,
      min (baseCost + costIncreases (matchingAdjusters p.costAdjusters playingType card target
          ignoreType penaltyAspect) card) adjuster.costFloor ≤
        p.runAdjustersForCostType playingType baseCost card target ignoreType penaltyAspect) := by
  have hrun : p.runAdjustersForCostType playingType baseCost card target ignoreType
      penaltyAspect =
      max
        ((baseCost + costIncreases (matchingAdjusters p.costAdjusters playingType card target
            ignoreType penaltyAspect) card) -
          costDecreases (matchingAdjusters p.costAdjusters playingType card target ignoreType
            penaltyAspect) card)
        (min (baseCost + costIncreases (matchingAdjusters p.costAdjusters playingType card target
            ignoreType penaltyAspect) card) F) := by
    simp only [Player.runAdjustersForCostType, hF]
  refine ⟨hrun, ?_⟩
  intro adjuster hmem
  have hfloor : adjuster.costFloor ≤ F :=
    le_jsMathMax (List.mem_map_of_mem (fun a => a.costFloor) hmem) hF
  rw [hrun]
  exact le_trans (min_le_min (le_refl _) hfloor) (le_max_right _ _)

/-- C3 witness: base cost 4, one always-matching adjuster reducing by 3 with
floor 2 yields `max (4 - 3) (min 4 2) = 2`, and the result is at least
`min C F` for that adjuster's floor. -/
theorem runAdjustersForCostType_floor_clamp_witness :
    Player.runAdjustersForCostType costPlayerFixture PlayType.playFromHand 4 0 none false
        none = 2 ∧
    min ((4 : Int) + costIncreases (matchingAdjusters costPlayerFixture.costAdjusters
        PlayType.playFromHand 0 none false none) 0) reduceByThreeFloorTwo.costFloor ≤
      Player.runAdjustersForCostType costPlayerFixture PlayType.playFromHand 4 0 none false
        none := by
  have h := runAdjustersForCostType_floor_clamp costPlayerFixture PlayType.playFromHand 4 0
    none false none 2 rfl
  refine ⟨?_, h.2 reduceByThreeFloorTwo (by simp [matchingAdjusters, costPlayerFixture,
    reduceByThreeFloorTwo])⟩
  rw [h.1]
  rfl

/-- C10: a call to `getAdjustedCost` leaves the player unchanged, and a
second call on the resulting state returns the same value (cost computation
consumes no adjuster uses and mutates nothing it reads). -/
theorem getAdjustedCost_idempotent (p : Player) (playingType : PlayType) (card : Nat)
    (cardCost : Int) (target : Option Nat) (ignoreType : Bool)
    (aspects : Option (List Aspect)) :
    ((Player.getAdjustedCostCall p playingType card cardCost target ignoreType aspects).2
      = p) ∧
    ((Player.getAdjustedCostCall
        (Player.getAdjustedCostCall p playingType card cardCost target ignoreType aspects).2
        playingType card cardCost target ignoreType aspects).1 =
      (Player.getAdjustedCostCall p playingType card cardCost target ignoreType aspects).1) :=
  ⟨rfl, rfl⟩

/-- C1: if the resolver is cancelled when the pipeline reaches
`initiateAbilityEffects` / `executeHandler`, the ability's effect handler is
never invoked and every event of the resolution has `cancel()` called on it;
`executeHandler` alone also never invokes the handler on a cancelled
resolver. -/
theorem cancelled_resolution_skips_handler_and_cancels_events
    (ability : Ability) (thenWindowResolved : Bool) (s : ResolverState)
    (h : s.cancelled = true) :
    ((executeHandler (initiateAbilityEffects ability thenWindowResolved s)).handlerExecuted
      = s.handlerExecuted) ∧
    (∀ e ∈ (executeHandler (initiateAbilityEffects ability thenWindowResolved s)).events,
      e.cancelled = true) ∧
    (∀ s' : ResolverState, s'.cancelled = true →
      (executeHandler s').handlerExecuted = s'.handlerExecuted) := by
  have hinit : initiateAbilityEffects ability thenWindowResolved s =
      { s with events := s.events.map GameEvent.cancel } := by
    simp [initiateAbilityEffects, h]
  have hexec : ∀ s' : ResolverState, s'.cancelled = true → executeHandler s' = s' := by
    intro s' h'
    simp [executeHandler, h']
  refine ⟨?_, ?_, fun s' h' => by rw [hexec s' h']⟩
  · rw [hinit, hexec _ (by simp [h])]
  · rw [hinit, hexec _ (by simp [h])]
    intro e he
    rcases List.mem_map.mp he with ⟨e₀, _, rfl⟩
    rfl

/-- C1 witness: a cancelled resolver holding one pending event never runs
the effect handler, and the pending event ends up cancelled. -/
theorem cancelled_resolution_skips_handler_and_cancels_events_witness :
    ((executeHandler (initiateAbilityEffects { optional := false, isActivatedAbility := false }
        true cancelledResolverFixture)).handlerExecuted = false) ∧
    (∀ e ∈ (executeHandler (initiateAbilityEffects
        { optional := false, isActivatedAbility := false }
        true cancelledResolverFixture)).events, e.cancelled = true) := by
  have h := cancelled_resolution_skips_handler_and_cancels_events
    { optional := false, isActivatedAbility := false } true cancelledResolverFixture rfl
  exact ⟨h.1, h.2.1⟩

/-- C6: for a leaves-play event, `createContingentEvents` produces exactly
one defeat event per upgrade of the event's card currently in an arena, and
each contingent event's ordering key is the primary event's order minus 1,
hence strictly before the primary event's order. -/
theorem leavesPlay_contingent_events_order
    (sys defeatSystem : GameSystem) (frameworkContext : AbilityContext) (event : GameEvent)
    (card : Nat) (context : AbilityContext) (additionalProperties : PropertyOverrides)
    (st : GameState) :
    (((addLeavesPlayPropertiesToEvent sys defeatSystem frameworkContext event card context
        additionalProperties).2 st).length =
      ((st card).upgrades.filter fun upgrade =>
        EnumHelpers.isArena (.ofLocation (st upgrade).location)).length) ∧
    (((addLeavesPlayPropertiesToEvent sys defeatSystem frameworkContext event card context
        additionalProperties).2 st).map (fun contingent => contingent.card) =
      ((st card).upgrades.filter fun upgrade =>
        EnumHelpers.isArena (.ofLocation (st upgrade).location)).map some) ∧
    (∀ contingent ∈ (addLeavesPlayPropertiesToEvent sys defeatSystem frameworkContext event
        card context additionalProperties).2 st,
      contingent.name = defeatSystem.eventName ∧
      contingent.isContingent = true ∧
      contingent.order =
        (addLeavesPlayPropertiesToEvent sys defeatSystem frameworkContext event card context
          additionalProperties).1.order - 1 ∧
      contingent.order <
        (addLeavesPlayPropertiesToEvent sys defeatSystem frameworkContext event card context
          additionalProperties).1.order) := by
  refine ⟨?_, ?_, ?_⟩
  · simp [addLeavesPlayPropertiesToEvent, updateEvent]
  · simp only [addLeavesPlayPropertiesToEvent, List.map_map]
    rfl
  · intro contingent hmem
    simp only [addLeavesPlayPropertiesToEvent, List.mem_map] at hmem
    rcases hmem with ⟨upgrade, _, rfl⟩
    exact ⟨rfl, rfl, rfl, by simp [addLeavesPlayPropertiesToEvent, updateEvent]⟩

/-- C6 witness: defeating the host card 0, which wears the single in-arena
upgrade card 1, produces exactly one contingent defeat event, ordered
strictly before the primary event (order 0) at order -1. -/
theorem leavesPlay_contingent_events_order_witness :
    (((addLeavesPlayPropertiesToEvent damageSystem defeatSystemFixture sampleContext
        (createEvent damageSystem 0 sampleContext {}) 0 sampleContext {}).2
        hostWithUpgradeState).length = 1) ∧
    (∀ contingent ∈ (addLeavesPlayPropertiesToEvent damageSystem defeatSystemFixture
        sampleContext (createEvent damageSystem 0 sampleContext {}) 0 sampleContext {}).2
        hostWithUpgradeState,
      contingent.order = (0 : Int) - 1 ∧ contingent.order < 0) := by
  have h := leavesPlay_contingent_events_order damageSystem defeatSystemFixture sampleContext
    (createEvent damageSystem 0 sampleContext {}) 0 sampleContext {} hostWithUpgradeState
  constructor
  · rw [h.1]
    rfl
  · intro contingent hmem
    exact ⟨(h.2.2 contingent hmem).2.2.1, (h.2.2 contingent hmem).2.2.2⟩

/-- Every scheduled resolver step preserves `promptInv`: only
`checkForPass` on an unshown handler increments the count, and it sets
`hasBeenShown` first. -/
theorem promptInv_step (s : ResolverState) (step : ResolverStep) (h : promptInv s) :
    promptInv (runResolverStep s step) := by
  obtain ⟨h1, h2⟩ := h
  cases step with
  | checkForCancelOrPass =>
    simp only [runResolverStep, checkForCancelOrPass]
    split
    · exact ⟨h1, h2⟩
    · split
      · exact ⟨h1, h2⟩
      · exact ⟨h1, h2⟩
  | checkForPass =>
    simp only [runResolverStep, checkForPass]
    split
    · exact ⟨h1, h2⟩
    · split
      · exact ⟨h1, h2⟩
      · split
        · rename_i x heq
          have hzero : s.promptsShown = 0 := h2 (by simp [heq])
          exact ⟨by simp [hzero], by simp⟩
        · exact ⟨h1, h2⟩
  | external c t k =>
    exact ⟨h1, h2⟩

/-- `promptInv` is preserved by any schedule of resolver steps. -/
theorem promptInv_run (trace : List ResolverStep) (s : ResolverState) (h : promptInv s) :
    promptInv (runResolver s trace) := by
  induction trace generalizing s with
  | nil => exact h
  | cons step rest ih => exact ih _ (promptInv_step s step h)

/-- No resolver step creates a pass handler: a `none` `passHasBeenShown`
stays `none` along any schedule. -/
theorem passHasBeenShown_none_run (trace : List ResolverStep) (s : ResolverState)
    (h : s.passHasBeenShown = none) : (runResolver s trace).passHasBeenShown = none := by
  induction trace generalizing s with
  | nil => exact h
  | cons step rest ih =>
    refine ih _ ?_
    cases step with
    | checkForCancelOrPass =>
      simp only [runResolverStep, checkForCancelOrPass]
      split
      · exact h
      · split
        · exact h
        · exact h
    | checkForPass =>
      simp only [runResolverStep, checkForPass]
      split
      · exact h
      · split
        · exact h
        · split
          · rename_i x heq
            rw [h] at heq
            cases heq
          · exact h
    | external c t k => exact h

/-- C5: across any schedule of pipeline re-entries, the Trigger-or-Pass
prompt is shown at most once; for a non-optional ability `passAbilityHandler`
is null and the prompt is never shown; and for an optional ability the
canonical uncancelled pipeline (`checkForCancelOrPass` queueing
`checkForPass`, later re-entries included) shows it exactly once. -/
theorem pass_prompt_shown_at_most_once (ability : Ability) (trace : List ResolverStep) :
    ((runResolver (initialResolverState ability) trace).promptsShown ≤ 1) ∧
    (ability.optional = false →
      (initialResolverState ability).passHasBeenShown = none ∧
      (runResolver (initialResolverState ability) trace).promptsShown = 0) ∧
    (ability.optional = true →
      (runResolver (initialResolverState ability)
        [ResolverStep.checkForCancelOrPass, ResolverStep.checkForPass,
          ResolverStep.external none none none,
          ResolverStep.checkForCancelOrPass]).promptsShown = 1) := by
  have hinv : promptInv (initialResolverState ability) := by
    exact ⟨by simp [initialResolverState], fun _ => rfl⟩
  have hrun := promptInv_run trace _ hinv
  refine ⟨hrun.1, ?_, ?_⟩
  · intro hopt
    have hnone : (initialResolverState ability).passHasBeenShown = none := by
      simp [initialResolverState, hopt]
    refine ⟨hnone, hrun.2 ?_⟩
    rw [passHasBeenShown_none_run trace _ hnone]
    simp
  · intro hopt
    simp [initialResolverState, hopt, runResolver, runResolverStep, checkForCancelOrPass,
      checkForPass, Option.getD]

/-- C5 witness: an optional ability shows the prompt exactly once on the
canonical schedule, and still at most once on a schedule that re-enters
`checkForPass` a second time. -/
theorem pass_prompt_shown_at_most_once_witness :
    ((runResolver (initialResolverState { optional := true, isActivatedAbility := false })
      [ResolverStep.checkForCancelOrPass, ResolverStep.checkForPass,
        ResolverStep.external none none none,
        ResolverStep.checkForCancelOrPass]).promptsShown = 1) ∧
    ((runResolver (initialResolverState { optional := true, isActivatedAbility := false })
      [ResolverStep.checkForCancelOrPass, ResolverStep.checkForPass, ResolverStep.checkForPass,
        ResolverStep.checkForCancelOrPass]).promptsShown ≤ 1) :=
  ⟨(pass_prompt_shown_at_most_once { optional := true, isActivatedAbility := false }
      [ResolverStep.checkForCancelOrPass, ResolverStep.checkForPass,
        ResolverStep.external none none none,
        ResolverStep.checkForCancelOrPass]).2.2 rfl,
    (pass_prompt_shown_at_most_once { optional := true, isActivatedAbility := false }
      [ResolverStep.checkForCancelOrPass, ResolverStep.checkForPass, ResolverStep.checkForPass,
        ResolverStep.checkForCancelOrPass]).1⟩

/-- Running the `resolveCost` steps of one loop iteration never touches the
events array. -/
theorem foldl_resolveCost_events (sys : GameSystem) (context : AbilityContext)
    (additionalProperties : PropertyOverrides) (costs : List UnlessCostProp) (i : Nat)
    (s : CostQueueState) :
    ((costs.map fun properties =>
        CostQueueStep.resolveCost i properties.costHasLegalTarget).foldl
      (runCostQueueStep sys context additionalProperties) s).events = s.events := by
  induction costs generalizing s with
  | nil => rfl
  | cons p cs ih =>
    simp only [List.map_cons, List.foldl_cons]
    rw [ih]
    cases hp : p.costHasLegalTarget <;> simp [runCostQueueStep, hp]

/-- Running the `resolveCost` steps of loop iteration `i` conjoins the
iteration's `allCostsPaid` cell with the payability of each cost and leaves
every other cell alone. -/
theorem foldl_resolveCost_paid (sys : GameSystem) (context : AbilityContext)
    (additionalProperties : PropertyOverrides) (costs : List UnlessCostProp) (i : Nat)
    (s : CostQueueState) (j : Nat) :
    ((costs.map fun properties =>
        CostQueueStep.resolveCost i properties.costHasLegalTarget).foldl
      (runCostQueueStep sys context additionalProperties) s).allCostsPaid j =
      if j = i then
        s.allCostsPaid i && costs.all fun properties => properties.costHasLegalTarget
      else s.allCostsPaid j := by
  induction costs generalizing s with
  | nil =>
    by_cases hj : j = i <;> simp [hj]
  | cons p cs ih =>
    simp only [List.map_cons, List.foldl_cons]
    rw [ih]
    cases hp : p.costHasLegalTarget with
    | true =>
      simp only [runCostQueueStep, hp, if_pos rfl]
      by_cases hj : j = i <;> simp [hj, List.all_cons, hp]
    | false =>
      simp only [runCostQueueStep, hp]
      by_cases hj : j = i <;> simp [hj, List.all_cons, hp]

/-- Characterization of the deferred work queued by
`generateEventsForAllTargets`, from any start index `n` and any state whose
cells at indices `≥ n` are untouched: the queued steps append exactly one
event per card whose (nonempty) additional costs are all payable. -/
theorem runQueue_enumFrom (sys : GameSystem) (st : GameState) (context : AbilityContext)
    (additionalProperties : PropertyOverrides) (l : List Nat) (n : Nat) (s : CostQueueState)
    (hpaid : ∀ j, n ≤ j → s.allCostsPaid j = true) :
    (((List.enumFrom n l).flatMap fun pair => costSteps sys st pair.1 pair.2).foldl
      (runCostQueueStep sys context additionalProperties) s).events =
      s.events ++ ((l.filter fun card =>
        !(matchingAdditionalCosts sys st card).isEmpty &&
          (matchingAdditionalCosts sys st card).all fun properties =>
            properties.costHasLegalTarget).map fun card =>
        generateEvent sys card context additionalProperties) := by
  induction l generalizing n s with
  | nil => simp
  | cons c l' ih =>
    have henum : List.enumFrom n (c :: l') = (n, c) :: List.enumFrom (n + 1) l' := rfl
    rw [henum]
    simp only [List.flatMap_cons, List.foldl_append]
    by_cases hempty : (matchingAdditionalCosts sys st c).isEmpty = true
    · have hsteps : costSteps sys st n c = [] := by
        simp [costSteps, hempty]
      rw [hsteps]
      simp only [List.foldl_nil]
      rw [List.filter_cons, if_neg (by simp [hempty])]
      exact ih (n + 1) s fun j hj => hpaid j (Nat.le_of_succ_le hj)
    · have hsteps : costSteps sys st n c =
          ((matchingAdditionalCosts sys st c).map fun properties =>
            CostQueueStep.resolveCost n properties.costHasLegalTarget) ++
          [CostQueueStep.pushIfPaid n c] := by
        simp [costSteps, hempty]
      rw [hsteps]
      simp only [List.foldl_append, List.foldl_cons, List.foldl_nil]
      set s2 := ((matchingAdditionalCosts sys st c).map fun properties =>
        CostQueueStep.resolveCost n properties.costHasLegalTarget).foldl
        (runCostQueueStep sys context additionalProperties) s with hs2
      have hs2events : s2.events = s.events :=
        foldl_resolveCost_events sys context additionalProperties _ n s
      have hs2paid : ∀ j, s2.allCostsPaid j =
          if j = n then
            s.allCostsPaid n && (matchingAdditionalCosts sys st c).all fun properties =>
              properties.costHasLegalTarget
          else s.allCostsPaid j := fun j =>
        foldl_resolveCost_paid sys context additionalProperties _ n s j
      have hs2n : s2.allCostsPaid n =
          (matchingAdditionalCosts sys st c).all fun properties =>
            properties.costHasLegalTarget := by
        rw [hs2paid n, if_pos rfl, hpaid n (Nat.le_refl n), Bool.true_and]
      by_cases hall : ((matchingAdditionalCosts sys st c).all fun properties =>
          properties.costHasLegalTarget) = true
      · have hpush : runCostQueueStep sys context additionalProperties s2
            (CostQueueStep.pushIfPaid n c) =
            { s2 with events := s2.events ++
                [generateEvent sys c context additionalProperties] } := by
          simp [runCostQueueStep, hs2n, hall]
        rw [hpush]
        rw [ih (n + 1) _ (fun j hj => by
          simp only [hs2paid j, if_neg (Nat.ne_of_gt hj)]
          exact hpaid j (Nat.le_of_succ_le hj))]
        simp only [hs2events, List.filter_cons]
        rw [if_pos (by simp [hempty, hall])]
        simp [List.append_assoc]
      · have hpush : runCostQueueStep sys context additionalProperties s2
            (CostQueueStep.pushIfPaid n c) = s2 := by
          simp [runCostQueueStep, hs2n, hall]
        rw [hpush]
        rw [ih (n + 1) _ (fun j hj => by
          simp only [hs2paid j, if_neg (Nat.ne_of_gt hj)]
          exact hpaid j (Nat.le_of_succ_le hj))]
        simp only [hs2events, List.filter_cons]
        rw [if_neg (by simp [hall])]

/-- The event generated for a target records that target as its card. -/
theorem generateEvent_card (sys : GameSystem) (target : Nat) (context : AbilityContext)
    (additionalProperties : PropertyOverrides) :
    (generateEvent sys target context additionalProperties).card = some target := rfl

/-- C7: `generateEventsForAllTargets` emits the no-additional-cost targets'
events followed by the events of targets whose own additional costs were all
payable; consequently each target's event is emitted iff that target's own
"unless" costs were all payable (or it had none), independently of the other
targets' costs. -/
theorem generateEventsForAllTargets_per_card (sys : GameSystem) (st : GameState)
    (context : AbilityContext) (additionalProperties : PropertyOverrides) :
    (generateEventsForAllTargets sys st context additionalProperties =
      (((targets sys context additionalProperties).filter fun card =>
        (matchingAdditionalCosts sys st card).isEmpty).map fun card =>
        generateEvent sys card context additionalProperties) ++
      (((targets sys context additionalProperties).filter fun card =>
        !(matchingAdditionalCosts sys st card).isEmpty &&
          (matchingAdditionalCosts sys st card).all fun properties =>
            properties.costHasLegalTarget).map fun card =>
        generateEvent sys card context additionalProperties)) ∧
    (∀ card ∈ targets sys context additionalProperties,
      (∃ e ∈ generateEventsForAllTargets sys st context additionalProperties,
        e.card = some card) ↔
      ((matchingAdditionalCosts sys st card).all fun properties =>
        properties.costHasLegalTarget) = true) := by
  have h1 : generateEventsForAllTargets sys st context additionalProperties =
      (((targets sys context additionalProperties).filter fun card =>
        (matchingAdditionalCosts sys st card).isEmpty).map fun card =>
        generateEvent sys card context additionalProperties) ++
      (((targets sys context additionalProperties).filter fun card =>
        !(matchingAdditionalCosts sys st card).isEmpty &&
          (matchingAdditionalCosts sys st card).all fun properties =>
            properties.costHasLegalTarget).map fun card =>
        generateEvent sys card context additionalProperties) :=
    runQueue_enumFrom sys st context additionalProperties
      (targets sys context additionalProperties) 0
      { allCostsPaid := fun _ => true
        events := ((targets sys context additionalProperties).filter fun card =>
          (matchingAdditionalCosts sys st card).isEmpty).map fun card =>
          generateEvent sys card context additionalProperties }
      (fun _ _ => rfl)
  refine ⟨h1, ?_⟩
  intro card hcard
  constructor
  · rintro ⟨e, he, hecard⟩
    rw [h1] at he
    rcases List.mem_append.mp he with hmem | hmem
    · rcases List.mem_map.mp hmem with ⟨c', hc', rfl⟩
      rw [generateEvent_card, Option.some_inj] at hecard
      subst hecard
      have hnil : matchingAdditionalCosts sys st c' = [] := by
        simpa using (List.mem_filter.mp hc').2
      rw [hnil]
      rfl
    · rcases List.mem_map.mp hmem with ⟨c', hc', rfl⟩
      rw [generateEvent_card, Option.some_inj] at hecard
      subst hecard
      have hcond := (List.mem_filter.mp hc').2
      simp only [Bool.and_eq_true] at hcond
      exact hcond.2
  · intro hall
    refine ⟨generateEvent sys card context additionalProperties, ?_, generateEvent_card _ _ _ _⟩
    rw [h1]
    by_cases hempty : (matchingAdditionalCosts sys st card).isEmpty = true
    · exact List.mem_append_left _
        (List.mem_map_of_mem _ (List.mem_filter.mpr ⟨hcard, hempty⟩))
    · refine List.mem_append_right _
        (List.mem_map_of_mem _ (List.mem_filter.mpr ⟨hcard, ?_⟩))
      simp [hempty, hall]

/-- C7 witness: with targets 0, 1, 2 where only target 1 carries an
(unpayable) "unless" additional cost, exactly target 1's event is omitted
and the events for 0 and 2 are still produced. -/
theorem generateEventsForAllTargets_per_card_witness :
    (∃ e ∈ generateEventsForAllTargets threeTargetSystem threeTargetState sampleContext {},
      e.card = some 0) ∧
    (¬ ∃ e ∈ generateEventsForAllTargets threeTargetSystem threeTargetState sampleContext {},
      e.card = some 1) ∧
    (∃ e ∈ generateEventsForAllTargets threeTargetSystem threeTargetState sampleContext {},
      e.card = some 2) := by
  have h := (generateEventsForAllTargets_per_card threeTargetSystem threeTargetState
    sampleContext {}).2
  refine ⟨(h 0 (by decide)).mpr (by decide), ?_, (h 2 (by decide)).mpr (by decide)⟩
  intro hex
  have := (h 1 (by decide)).mp hex
  revert this
  decide

end Forceteki
